import Mathlib

/-!
Shallow embedding of `src/isbnlib/dev/_coverscache.py` (class `CoversCache`).

The on-disk world is modelled explicitly:
  * regular files as an association list `path ↦ contents`,
  * existing directories as a list of paths,
  * the `ShelveCache` index (`self._index`) as `Option` of an association
    list `key ↦ (url, path)`; `none` models a detached handle
    (`self._index = None`), on which every dictionary operation raises.

Python 2 semantics that matter here and are embedded faithfully:
  * `os.path.isfile(None)` raises `TypeError` (only `os.error` is caught
    inside `genericpath.isfile`), so `sync` raises on an entry whose
    stored path is `None`;
  * a bare `except:` catches everything, so `__getitem__`, `__setitem__`,
    `__delitem__` and `purge` convert any exception into `None`/`False`;
  * `shutil.copyfile` raises when source and destination are the same
    path, or when the destination directory does not exist;
  * a name referenced before assignment (`target` when the copy branch is
    skipped) raises `NameError`, which the bare `except:` turns into
    `False`.

Fallible operations (`sync`, whole-cache `delete`) return `Except` whose
error value carries the state as mutated up to the point of the raise,
because the shelve index writes through on each assignment.
-/

deriving instance DecidableEq for Except

namespace CoversCache

/-- Contents-addressed model of the regular files on disk. -/
abbrev Fs := List (String × String)

/-- The persistent index: `key ↦ (url, path)`, in insertion order
(later entries were written more recently). -/
abbrev CIndex := List (String × String × Option String)

/-- `MAXLEN` class constant. -/
def MAXLEN : Nat := 3000

/-- `NSLOTS` class constant. -/
def NSLOTS : Nat := 10

/-- `os.path.isfile`: a regular file exists at this path. -/
def isfile (fs : Fs) (p : String) : Bool :=
  (List.lookup p fs).isSome

/-- Contents of the regular file at `p`, when one exists. -/
def lookupFs (fs : Fs) (p : String) : Option String :=
  List.lookup p fs

/-- Write a regular file at `p` (overwriting any previous one). -/
def fsInsert (p c : String) (fs : Fs) : Fs :=
  (p, c) :: fs.filter (fun e => !(e.1 == p))

/-- `os.path.join` for the two-component joins the source performs. -/
def joinPath (d n : String) : String :=
  d ++ "/" ++ n

/-- Characters after the last `'/'` of the input (whole input when no
separator occurs), accumulating the current component in reverse. -/
def baseNameAux : List Char → List Char → List Char
  | acc, [] => acc.reverse
  | acc, c :: cs => if c == '/' then baseNameAux [] cs else baseNameAux (c :: acc) cs

/-- `os.path.basename`: the component after the last separator. -/
def baseName (p : String) : String :=
  String.mk (baseNameAux [] p.data)

/-- `"slot%02d" % n`. -/
def slotName (n : Nat) : String :=
  "slot" ++ (if n < 10 then "0" ++ toString n else toString n)

/-- `_get_slot` with the result of `randint(0, 9)` made explicit. -/
def slotPath (root : String) (n : Nat) : String :=
  joinPath root (slotName n)

/-- Is `p` strictly inside the cache root directory? -/
def underRoot (root p : String) : Bool :=
  List.isPrefixOf (root ++ "/").data p.data

/-- The whole state a `CoversCache` instance can observe and mutate. -/
structure CacheState where
  root  : String
  dirs  : List String
  fs    : Fs
  index : Option CIndex
deriving DecidableEq

/-- `self._indexpath = os.path.join(cachepath, self.INDEXFN)`. -/
def indexpath (st : CacheState) : String :=
  joinPath st.root ".index"

/-- `self._index[key] = v`: replace in place, or append as the newest entry. -/
def indexSet (k : String) (v : String × Option String) : CIndex → CIndex
  | [] => [(k, v)]
  | e :: rest => if e.1 == k then (k, v) :: rest else e :: indexSet k v rest

/-- The keys of the index, in order. -/
def indexKeys (idx : CIndex) : List String :=
  idx.map Prod.fst

/-- The non-null paths currently recorded in the index, in order. -/
def recordedPaths (idx : CIndex) : List String :=
  idx.filterMap (fun e => e.2.2)

/-- `files()`: every file found by `os.walk` under the cache root. -/
def files (st : CacheState) : List String :=
  (st.fs.map Prod.fst).filter (underRoot st.root)

/-- `__getitem__`: `try: return self._index[key] except: return None`. -/
def getitem (st : CacheState) (key : String) : Option (String × Option String) :=
  match st.index with
  | none => none
  | some idx => List.lookup key idx

/-- `__setitem__` with the result `n` of `randint(0, 9)` made explicit.
Returns the reported boolean and the state after the call.
Control flow of the source, line by line: when `pth` is empty or not a
file, the later `os.path.isfile(target)` hits an unassigned `target`
(`NameError`, caught, `False`); `shutil.copyfile` raises when the slot
directory is missing or `target == pth`; after a successful copy
`os.path.isfile(target)` is true, so only `url` is tested; an empty
`url` reaches a bare `raise` (caught, `False`) leaving the copied file
as an orphan; assigning into a detached index raises (caught, `False`). -/
def setitem (st : CacheState) (n : Fin 10) (key url pth : String) :
    Bool × CacheState :=
  if pth != "" && isfile st.fs pth then
    let target := joinPath (slotPath st.root n.val) (baseName pth)
    if target == pth then (false, st)
    else if st.dirs.contains (slotPath st.root n.val) then
      let fs' := fsInsert target ((lookupFs st.fs pth).getD "") st.fs
      if url != "" then
        match st.index with
        | some idx =>
            (true, { st with fs := fs',
                             index := some (indexSet key (url, some target) idx) })
        | none => (false, { st with fs := fs' })
      else (false, { st with fs := fs' })
    else (false, st)
  else (false, st)

/-- `__delitem__`: `try: del self._index[key]; return True except: return False`. -/
def delitem (st : CacheState) (key : String) : Bool × CacheState :=
  match st.index with
  | none => (false, st)
  | some idx =>
    if (indexKeys idx).contains key then
      (true, { st with index := some (idx.filter (fun e => !(e.1 == key))) })
    else (false, st)

/-- The per-key loop of `sync`: for each key read `(url, pth)`, null the
path when no file exists at it, and append the value read back from the
index to `checked` (a `None` path contributes nothing to the later set
difference over file paths).  An entry whose stored path is already
`None` raises `TypeError` inside `os.path.isfile`; the error value is
the index as rewritten so far (shelve assignments persist).  Iterating
the entries in order is `for key in self._index.keys()` together with
the per-key lookups, since shelve keys are unique. -/
def syncLoop (fs : Fs) : CIndex → Except CIndex (CIndex × List String)
  | [] => Except.ok ([], [])
  | (k, url, opth) :: rest =>
    match opth with
    | none => Except.error ((k, (url, none)) :: rest)
    | some p =>
      if isfile fs p then
        match syncLoop fs rest with
        | Except.ok (idx, chk) => Except.ok ((k, (url, some p)) :: idx, p :: chk)
        | Except.error idx => Except.error ((k, (url, some p)) :: idx)
      else
        match syncLoop fs rest with
        | Except.ok (idx, chk) => Except.ok ((k, (url, none)) :: idx, chk)
        | Except.error idx => Except.error ((k, (url, none)) :: idx)

/-- `sync()`: repair the index against the files, then delete every file
under the cache root that is neither the index file nor a path read back
from a repaired entry.  A raise inside the loop aborts before any file
is deleted; calling through a detached index raises at once. -/
def sync (st : CacheState) : Except CacheState CacheState :=
  match st.index with
  | none => Except.error st
  | some idx =>
    match syncLoop st.fs idx with
    | Except.error idx' => Except.error { st with index := some idx' }
    | Except.ok (idx', chk) =>
      let checked := indexpath st :: chk
      Except.ok { st with index := some idx',
                          fs := st.fs.filter
                            (fun e => !(underRoot st.root e.1) || checked.contains e.1) }

/-- Modelled from the spec: `ShelveCache.purge` (the `PersistentIndex`
purge capability) is not under `src/`; per the spec it shrinks the
mapping to at most `MAXLEN` entries, preferring entries with more hits
and, among ties, more recently written ones.  Hit counts live inside
`ShelveCache`, so they enter as the function `hits`; recency is the
position in the index list (later entries are newer).  An entry is
retained exactly when fewer than `MAXLEN` entries rank strictly better. -/
def indexPurge (hits : String → Nat) (idx : CIndex) : CIndex :=
  let ranked := idx.enum
  let better := fun (a b : Nat × String × String × Option String) =>
    (hits b.2.1 < hits a.2.1) || (hits a.2.1 == hits b.2.1 && b.1 < a.1)
  (ranked.filter
    (fun e => (ranked.filter (fun f => better f e)).length < MAXLEN)).map Prod.snd

/-- `purge()`: `try: self._index.purge(); self.sync(); return True
except: return False`.  With a detached index the very first attribute
access raises; otherwise the only raise can come from `sync`, and the
state mutated so far is kept. -/
def purge (hits : String → Nat) (st : CacheState) : Bool × CacheState :=
  match st.index with
  | none => (false, st)
  | some idx =>
    match sync { st with index := some (indexPurge hits idx) } with
    | Except.ok s => (true, s)
    | Except.error s => (false, s)

/-- Whole-cache `delete()`: `self._index = None; return
shutil.rmtree(self.cachepath)`.  The handle is detached before the
removal, and `shutil.rmtree` raises when the root directory does not
exist; on success the entire tree below the root is gone. -/
def delete (st : CacheState) : Except CacheState CacheState :=
  let st' : CacheState := { st with index := none }
  if st.dirs.contains st.root then
    Except.ok { st' with
      fs := st'.fs.filter (fun e => !(underRoot st.root e.1)),
      dirs := st'.dirs.filter (fun d => !(d == st.root || underRoot st.root d)) }
  else Except.error st'

/-! ### Association-list lemmas -/

theorem lookup_indexSet_self (k : String) (v : String × Option String)
    (idx : CIndex) : List.lookup k (indexSet k v idx) = some v := by
  induction idx with
  | nil => simp [indexSet, List.lookup]
  | cons e rest ih =>
    obtain ⟨a, b⟩ := e
    cases hak : (a == k) with
    | true => simp [indexSet, hak, List.lookup]
    | false =>
      have hka : (k == a) = false := by
        rw [beq_eq_false_iff_ne] at hak ⊢
        exact Ne.symm hak
      simp [indexSet, hak, List.lookup, hka, ih]

theorem lookup_indexSet_ne (k k' : String) (v : String × Option String)
    (idx : CIndex) (h : k' ≠ k) :
    List.lookup k' (indexSet k v idx) = List.lookup k' idx := by
  have hk'k : (k' == k) = false := beq_eq_false_iff_ne.mpr h
  induction idx with
  | nil => simp [indexSet, List.lookup, hk'k]
  | cons e rest ih =>
    obtain ⟨a, b⟩ := e
    cases hak : (a == k) with
    | true =>
      have hk'a : (k' == a) = false := by
        rw [beq_eq_false_iff_ne]
        intro hcon
        exact h (hcon.trans (beq_iff_eq.mp hak))
      simp [indexSet, hak, List.lookup, hk'a, hk'k]
    | false =>
      cases hk'a : (k' == a) with
      | true => simp [indexSet, hak, List.lookup, hk'a]
      | false => simp [indexSet, hak, List.lookup, hk'a, ih]

theorem lookup_fsInsert_self (p c : String) (fs : Fs) :
    lookupFs (fsInsert p c fs) p = some c := by
  simp [fsInsert, lookupFs, List.lookup]

theorem lookup_eq_none_iff_keys (k : String) (idx : CIndex) :
    List.lookup k idx = none ↔ k ∉ indexKeys idx := by
  induction idx with
  | nil => simp [List.lookup, indexKeys]
  | cons e rest ih =>
    obtain ⟨a, b⟩ := e
    cases hka : (k == a) with
    | true =>
      have hk : k = a := beq_iff_eq.mp hka
      subst hk
      simp [List.lookup, hka, indexKeys]
    | false =>
      have hne : k ≠ a := beq_eq_false_iff_ne.mp hka
      simp only [List.lookup, hka, indexKeys, List.map_cons, List.mem_cons] at ih ⊢
      rw [ih]
      simp [hne]

theorem lookup_some_mem (k : String) (v : String × Option String)
    (idx : CIndex) (h : List.lookup k idx = some v) : (k, v) ∈ idx := by
  induction idx with
  | nil => simp [List.lookup] at h
  | cons e rest ih =>
    obtain ⟨a, b⟩ := e
    cases hka : (k == a) with
    | true =>
      have hk : k = a := beq_iff_eq.mp hka
      subst hk
      simp [List.lookup, hka] at h
      simp [h]
    | false =>
      simp only [List.lookup, hka] at h
      exact List.mem_cons_of_mem _ (ih h)

theorem lookup_eraseKey_self (k : String) (idx : CIndex) :
    List.lookup k (idx.filter (fun e => !(e.1 == k))) = none := by
  induction idx with
  | nil => simp
  | cons e rest ih =>
    obtain ⟨a, b⟩ := e
    cases hak : (a == k) with
    | true => simp [List.filter, hak, ih]
    | false =>
      have hka : (k == a) = false := by
        rw [beq_eq_false_iff_ne] at hak ⊢
        exact Ne.symm hak
      simp [List.filter, hak, List.lookup, hka, ih]

theorem lookup_eraseKey_ne (k k' : String) (idx : CIndex) (h : k' ≠ k) :
    List.lookup k' (idx.filter (fun e => !(e.1 == k))) = List.lookup k' idx := by
  induction idx with
  | nil => simp
  | cons e rest ih =>
    obtain ⟨a, b⟩ := e
    cases hak : (a == k) with
    | true =>
      have hk'a : (k' == a) = false := by
        rw [beq_eq_false_iff_ne]
        intro hcon
        exact h (hcon.trans (beq_iff_eq.mp hak))
      simp [List.filter, hak, List.lookup, hk'a, ih]
    | false =>
      cases hk'a : (k' == a) with
      | true => simp [List.filter, hak, List.lookup, hk'a]
      | false => simp [List.filter, hak, List.lookup, hk'a, ih]


theorem isfile_fsInsert_self (p c : String) (fs : Fs) :
    isfile (fsInsert p c fs) p = true := by
  simp [isfile, fsInsert, List.lookup]

theorem isfile_getD_some (fs : Fs) (p : String) (h : isfile fs p = true) :
    some ((lookupFs fs p).getD "") = lookupFs fs p := by
  have h' : (List.lookup p fs).isSome = true := h
  obtain ⟨c, hc⟩ := Option.isSome_iff_exists.mp h'
  have hc' : lookupFs fs p = some c := hc
  rw [hc']
  rfl

/-- Inversion of a successful `setitem`: success forces an attached
index, an existing source file, a non-empty url, and the committed
copy-then-commit result state. -/
theorem setitem_true_inv (st : CacheState) (n : Fin 10) (key url pth : String)
    (h : (setitem st n key url pth).1 = true) :
    ∃ idx, st.index = some idx ∧ isfile st.fs pth = true ∧ url ≠ "" ∧
      setitem st n key url pth =
        (true,
         { st with
             fs := fsInsert (joinPath (slotPath st.root n.val) (baseName pth))
                     ((lookupFs st.fs pth).getD "") st.fs,
             index := some (indexSet key
               (url, some (joinPath (slotPath st.root n.val) (baseName pth))) idx) }) := by
  simp only [setitem] at h
  split at h
  case isFalse h1 => simp at h
  case isTrue h1 =>
    split at h
    case isTrue h2 => simp at h
    case isFalse h2 =>
      split at h
      case isFalse h3 => simp at h
      case isTrue h3 =>
        split at h
        case isFalse h4 => simp at h
        case isTrue h4 =>
          have hf : isfile st.fs pth = true := by
            have h1' := h1
            simp only [Bool.and_eq_true] at h1'
            exact h1'.2
          cases hix : st.index with
          | none => rw [hix] at h; simp at h
          | some idx =>
            refine ⟨idx, rfl, hf, bne_iff_ne.mp h4, ?_⟩
            simp only [setitem, if_pos h1, if_neg h2, if_pos h3, if_pos h4, hix]

/-- Claim C1: if `set(k, url, sourcePath)` reports success, the index
maps `k` to `(url, target)` where `target` is an existing regular file
in the chosen slot directory, named by the basename of `sourcePath`,
with contents equal to the contents of `sourcePath`. -/
theorem setitem_success_materializes (st : CacheState) (n : Fin 10)
    (key url pth : String) (h : (setitem st n key url pth).1 = true) :
    getitem (setitem st n key url pth).2 key =
      some (url, some (joinPath (slotPath st.root n.val) (baseName pth))) ∧
    isfile (setitem st n key url pth).2.fs
      (joinPath (slotPath st.root n.val) (baseName pth)) = true ∧
    lookupFs (setitem st n key url pth).2.fs
      (joinPath (slotPath st.root n.val) (baseName pth)) = lookupFs st.fs pth := by
  obtain ⟨idx, hix, hfile, hurl, hset⟩ := setitem_true_inv st n key url pth h
  rw [hset]
  refine ⟨?_, ?_, ?_⟩
  · dsimp only [getitem]
    exact lookup_indexSet_self key _ idx
  · exact isfile_fsInsert_self _ _ _
  · have hfile' : (List.lookup pth st.fs).isSome = true := hfile
    obtain ⟨c, hc⟩ := Option.isSome_iff_exists.mp hfile'
    have hc' : lookupFs st.fs pth = some c := hc
    dsimp only
    rw [lookup_fsInsert_self, hc']
    rfl

/-- Witness for C1 at a concrete cache state. -/
def w1 : CacheState :=
  { root := ".c", dirs := [".c", ".c/slot03"],
    fs := [(".c/.index", "I"), ("/tmp/a/cov.jpg", "AAA")],
    index := some [] }

theorem setitem_success_materializes_witness :
    getitem (setitem w1 3 "k1" "u1" "/tmp/a/cov.jpg").2 "k1" =
      some ("u1", some (joinPath (slotPath w1.root (3 : Fin 10).val)
        (baseName "/tmp/a/cov.jpg"))) ∧
    isfile (setitem w1 3 "k1" "u1" "/tmp/a/cov.jpg").2.fs
      (joinPath (slotPath w1.root (3 : Fin 10).val) (baseName "/tmp/a/cov.jpg")) = true ∧
    lookupFs (setitem w1 3 "k1" "u1" "/tmp/a/cov.jpg").2.fs
      (joinPath (slotPath w1.root (3 : Fin 10).val) (baseName "/tmp/a/cov.jpg")) =
      lookupFs w1.fs "/tmp/a/cov.jpg" :=
  setitem_success_materializes w1 3 "k1" "u1" "/tmp/a/cov.jpg" (by decide)

/-- Claim C5: when the source path is empty or not a file, the url is
empty, or the copy into the slot directory fails, `set` reports failure
and leaves the index untouched. -/
theorem setitem_failure_no_commit (st : CacheState) (n : Fin 10)
    (key url pth : String)
    (h : pth = "" ∨ isfile st.fs pth = false ∨ url = "" ∨
         st.dirs.contains (slotPath st.root n.val) = false ∨
         joinPath (slotPath st.root n.val) (baseName pth) = pth) :
    (setitem st n key url pth).1 = false ∧
    (setitem st n key url pth).2.index = st.index := by
  simp only [setitem]
  by_cases h1 : (pth != "" && isfile st.fs pth) = true
  · rw [if_pos h1]
    obtain ⟨hp, hf⟩ : (pth != "") = true ∧ isfile st.fs pth = true := by
      simpa only [Bool.and_eq_true] using h1
    by_cases h2 : (joinPath (slotPath st.root n.val) (baseName pth) == pth) = true
    · rw [if_pos h2]
      exact ⟨rfl, rfl⟩
    · rw [if_neg h2]
      by_cases h3 : st.dirs.contains (slotPath st.root n.val) = true
      · rw [if_pos h3]
        by_cases h4 : (url != "") = true
        · exfalso
          rcases h with h | h | h | h | h
          · exact bne_iff_ne.mp hp h
          · rw [h] at hf; simp at hf
          · exact bne_iff_ne.mp h4 h
          · rw [h] at h3; simp at h3
          · exact h2 (beq_iff_eq.mpr h)
        · rw [if_neg h4]
          exact ⟨rfl, rfl⟩
      · rw [if_neg h3]
        exact ⟨rfl, rfl⟩
  · rw [if_neg h1]
    exact ⟨rfl, rfl⟩

/-- Witness for C5: empty url at a concrete cache state. -/
def w5 : CacheState :=
  { root := ".c", dirs := [".c", ".c/slot03"],
    fs := [(".c/.index", "I"), ("/tmp/a/cov.jpg", "AAA")],
    index := some [] }

theorem setitem_failure_no_commit_witness :
    (setitem w5 3 "k1" "" "/tmp/a/cov.jpg").1 = false ∧
    (setitem w5 3 "k1" "" "/tmp/a/cov.jpg").2.index = w5.index :=
  setitem_failure_no_commit w5 3 "k1" "" "/tmp/a/cov.jpg"
    (Or.inr (Or.inr (Or.inl rfl)))


/-- Claim C6: `get` never raises: it returns exactly the stored pair on
a successful lookup and reports absent (`None`) whenever the lookup
fails, whether the key is missing or the index handle is unusable. -/
theorem getitem_never_raises (st : CacheState) (key : String) :
    (st.index = none → getitem st key = none) ∧
    ∀ idx, st.index = some idx →
      ((getitem st key = none ↔ key ∉ indexKeys idx) ∧
       ∀ v, getitem st key = some v → (key, v) ∈ idx) := by
  constructor
  · intro hix
    simp [getitem, hix]
  · intro idx hix
    have hget : getitem st key = List.lookup key idx := by
      simp [getitem, hix]
    constructor
    · rw [hget]
      exact lookup_eq_none_iff_keys key idx
    · intro v hv
      rw [hget] at hv
      exact lookup_some_mem key v idx hv

/-- Witness for C6: an unwritten key reads absent. -/
def w6 : CacheState :=
  { root := ".c", dirs := [".c"], fs := [(".c/.index", "I")],
    index := some [("a", ("u", none))] }

theorem getitem_never_raises_witness : getitem w6 "b" = none :=
  ((getitem_never_raises w6 "b").2 [("a", ("u", none))] rfl).1.mpr (by decide)

/-- Claim C7: per-key `delete` removes only the index entry for the key:
files and directories are untouched, other keys keep their values, the
deleted key reads absent afterwards, and the boolean result is `true`
exactly when an attached index contained the key (any raise is reported
as `false`). -/
theorem delitem_removes_only_key (st : CacheState) (key : String) :
    (delitem st key).2.fs = st.fs ∧
    (delitem st key).2.dirs = st.dirs ∧
    (delitem st key).2.root = st.root ∧
    getitem (delitem st key).2 key = none ∧
    (∀ k', k' ≠ key → getitem (delitem st key).2 k' = getitem st k') ∧
    ((delitem st key).1 = true ↔
       ∃ idx, st.index = some idx ∧ key ∈ indexKeys idx) := by
  cases hix : st.index with
  | none =>
    have hres : delitem st key = (false, st) := by
      simp [delitem, hix]
    rw [hres]
    refine ⟨rfl, rfl, rfl, ?_, ?_, ?_⟩
    · simp [getitem, hix]
    · intro k' _
      rfl
    · simp
  | some idx =>
    by_cases hk : (indexKeys idx).contains key = true
    · have hres : delitem st key =
          (true, { st with index := some (idx.filter (fun e => !(e.1 == key))) }) := by
        simp only [delitem, hix, if_pos hk]
      rw [hres]
      refine ⟨rfl, rfl, rfl, ?_, ?_, ?_⟩
      · dsimp only [getitem]
        exact lookup_eraseKey_self key idx
      · intro k' hk'
        dsimp only [getitem]
        rw [hix]
        exact lookup_eraseKey_ne key k' idx hk'
      · constructor
        · intro _
          exact ⟨idx, rfl, List.elem_iff.mp hk⟩
        · intro _
          rfl
    · have hres : delitem st key = (false, st) := by
        simp only [delitem, hix, if_neg hk]
      rw [hres]
      refine ⟨rfl, rfl, rfl, ?_, ?_, ?_⟩
      · have hnm : key ∉ indexKeys idx := fun hm => hk (List.elem_iff.mpr hm)
        have hget : getitem st key = List.lookup key idx := by
          simp [getitem, hix]
        rw [hget]
        exact (lookup_eq_none_iff_keys key idx).mpr hnm
      · intro k' _
        rfl
      · constructor
        · intro hcon
          simp at hcon
        · intro hcon
          obtain ⟨idx', heq, hm⟩ := hcon
          obtain rfl : idx = idx' := Option.some.inj heq
          exact absurd (List.elem_iff.mpr hm) hk

/-- Witness for C7 at a concrete cache state. -/
def w7 : CacheState :=
  { root := ".c", dirs := [".c"], fs := [(".c/.index", "I"), (".c/slot00/a.jpg", "A")],
    index := some [("k", ("u", some ".c/slot00/a.jpg"))] }

theorem delitem_removes_only_key_witness :
    (delitem w7 "k").2.fs = w7.fs ∧ getitem (delitem w7 "k").2 "k" = none :=
  ⟨(delitem_removes_only_key w7 "k").1,
   (delitem_removes_only_key w7 "k").2.2.2.1⟩

/-- Claim C8: `purge` runs the index purge then `sync` and reports a
boolean; every raise anywhere in that sequence (a detached index, or a
raise inside `sync`) is caught and reported as `false` instead of
propagating, leaving the state the sequence reached. -/
theorem purge_reports_boolean (hits : String → Nat) (st : CacheState) :
    (st.index = none → purge hits st = (false, st)) ∧
    ∀ idx, st.index = some idx →
      (sync { st with index := some (indexPurge hits idx) } =
           Except.ok (purge hits st).2 ∧ (purge hits st).1 = true) ∨
      (sync { st with index := some (indexPurge hits idx) } =
           Except.error (purge hits st).2 ∧ (purge hits st).1 = false) := by
  constructor
  · intro hix
    simp [purge, hix]
  · intro idx hix
    simp only [purge, hix]
    cases hs : sync { st with index := some (indexPurge hits idx) } with
    | ok s => exact Or.inl ⟨rfl, rfl⟩
    | error s => exact Or.inr ⟨rfl, rfl⟩

/-- Witness index and state for C8. -/
def w8idx : CIndex := [("k", ("u", some ".c/slot00/a.jpg"))]

def w8 : CacheState :=
  { root := ".c", dirs := [".c"], fs := [(".c/.index", "I"), (".c/slot00/a.jpg", "A")],
    index := some w8idx }

theorem purge_reports_boolean_witness : (purge (fun _ => 0) w8).1 = true := by
  rcases (purge_reports_boolean (fun _ => 0) w8).2 w8idx rfl with ⟨_, hb⟩ | ⟨hc, _⟩
  · exact hb
  · exact absurd hc (by decide)


theorem recordedPaths_cons_some (k u p : String) (idx : CIndex) :
    recordedPaths ((k, (u, some p)) :: idx) = p :: recordedPaths idx := by
  simp [recordedPaths]

theorem recordedPaths_cons_none (k u : String) (idx : CIndex) :
    recordedPaths ((k, (u, none)) :: idx) = recordedPaths idx := by
  simp [recordedPaths]

/-- The `checked` strings a completed sync loop accumulated are exactly
the paths recorded in the index it leaves behind. -/
theorem syncLoop_ok_recorded (fs : Fs) (idx : CIndex) :
    ∀ r, syncLoop fs idx = Except.ok r → recordedPaths r.1 = r.2 := by
  induction idx with
  | nil =>
    intro r h
    simp only [syncLoop] at h
    injection h with h'
    subst h'
    rfl
  | cons e rest ih =>
    intro r h
    obtain ⟨k, url, opth⟩ := e
    cases opth with
    | none =>
      simp only [syncLoop] at h
      exact Except.noConfusion h
    | some p =>
      simp only [syncLoop] at h
      by_cases hf : isfile fs p = true
      · rw [if_pos hf] at h
        cases hrec : syncLoop fs rest with
        | error bad =>
          rw [hrec] at h
          exact Except.noConfusion h
        | ok pr =>
          obtain ⟨i, c⟩ := pr
          rw [hrec] at h
          dsimp only at h
          injection h with h'
          subst h'
          dsimp only
          rw [recordedPaths_cons_some]
          rw [show recordedPaths i = c from ih (i, c) hrec]
      · rw [if_neg hf] at h
        cases hrec : syncLoop fs rest with
        | error bad =>
          rw [hrec] at h
          exact Except.noConfusion h
        | ok pr =>
          obtain ⟨i, c⟩ := pr
          rw [hrec] at h
          dsimp only at h
          injection h with h'
          subst h'
          dsimp only
          rw [recordedPaths_cons_none]
          exact ih (i, c) hrec

/-- Claim C4: when `sync` completes, every file under the cache root is
either the index file or a path recorded in some current index entry;
every other file (an orphan from a failed commit, or an extraneous file
created inside a slot directory) has been deleted. -/
theorem sync_ok_no_orphans (st st' : CacheState) (idx' : CIndex)
    (h : sync st = Except.ok st') (hix : st'.index = some idx') :
    ∀ p ∈ files st', p = indexpath st' ∨ p ∈ recordedPaths idx' := by
  cases hst : st.index with
  | none =>
    simp only [sync, hst] at h
    exact Except.noConfusion h
  | some idx =>
    simp only [sync, hst] at h
    cases hloop : syncLoop st.fs idx with
    | error bad =>
      rw [hloop] at h
      exact Except.noConfusion h
    | ok pr =>
      obtain ⟨idx0, chk⟩ := pr
      rw [hloop] at h
      dsimp only at h
      injection h with h'
      subst h'
      have hidx : idx' = idx0 := by
        dsimp only at hix
        exact (Option.some.inj hix).symm
      subst hidx
      intro p hp
      simp only [files] at hp
      rw [List.mem_filter] at hp
      obtain ⟨hmem, hunder⟩ := hp
      obtain ⟨e, he, rfl⟩ := List.mem_map.mp hmem
      rw [List.mem_filter] at he
      obtain ⟨heSt, hpred⟩ := he
      simp only [Bool.or_eq_true] at hpred
      rcases hpred with hno | hyes
      · rw [hunder] at hno
        simp at hno
      · have hmem2 : Prod.fst e ∈ indexpath st :: chk := List.elem_iff.mp hyes
        rcases List.mem_cons.mp hmem2 with hl | hr
        · exact Or.inl hl
        · rw [show recordedPaths idx' = chk from
            syncLoop_ok_recorded st.fs idx (idx', chk) hloop]
          exact Or.inr hr

/-- Witness state for C4: a kept file, an orphan in a slot, and the
index file. -/
def w4 : CacheState :=
  { root := ".c", dirs := [".c", ".c/slot00"],
    fs := [(".c/.index", "I"), (".c/slot00/keep.jpg", "K"),
           (".c/slot00/orphan.jpg", "O")],
    index := some [("k", ("u", some ".c/slot00/keep.jpg"))] }

/-- The state `sync` leaves behind on `w4`: the orphan is deleted. -/
def w4s : CacheState :=
  { root := ".c", dirs := [".c", ".c/slot00"],
    fs := [(".c/.index", "I"), (".c/slot00/keep.jpg", "K")],
    index := some [("k", ("u", some ".c/slot00/keep.jpg"))] }

theorem sync_ok_no_orphans_witness :
    ".c/slot00/keep.jpg" = indexpath w4s ∨
    ".c/slot00/keep.jpg" ∈ recordedPaths [("k", ("u", some ".c/slot00/keep.jpg"))] :=
  sync_ok_no_orphans w4 w4s [("k", ("u", some ".c/slot00/keep.jpg"))]
    (by decide) (by decide) ".c/slot00/keep.jpg" (by decide)

/-- Starting state for C2: one index entry whose recorded file is
missing from disk. -/
def c2start : CacheState :=
  { root := ".covers", dirs := [".covers", ".covers/slot00"],
    fs := [(".covers/.index", "idx")],
    index := some [("k", ("u", some ".covers/slot00/a.jpg"))] }

/-- The state after the first `sync` of C2: the dangling path was
rewritten to null, the url kept. -/
def c2after : CacheState := { c2start with index := some [("k", ("u", none))] }

/-- Claim C2 (code bug): the first `sync` succeeds and nulls the
dangling path, but the second `sync` raises — `os.path.isfile(None)`
raises `TypeError` in Python 2 — instead of reproducing the same index
and file set, so `sync` is not idempotent. -/
theorem sync_not_idempotent :
    sync c2start = Except.ok c2after ∧ sync c2after = Except.error c2after := by
  constructor
  · decide
  · decide

/-- State for C3: an index entry whose stored path is already null, as
`sync` itself produces for any dangling entry. -/
def c3state : CacheState :=
  { root := ".covers", dirs := [".covers"],
    fs := [(".covers/.index", "idx")],
    index := some [("k", ("u", none))] }

/-- Claim C3 (code bug): on an entry whose path does not refer to an
existing regular file because it is null, `sync` raises a `TypeError`
(from `os.path.isfile(None)`) instead of rewriting the entry to
`(url, null)` without exception. -/
theorem sync_raises_on_null_path : sync c3state = Except.error c3state := by
  decide


/-- Claim C9: whole-cache `delete` detaches the index handle and
recursively removes the entire cache root tree; when the root directory
is already gone, the error surfaces to the caller instead of being
silently ignored. -/
theorem delete_detaches_and_removes (st : CacheState) :
    (st.dirs.contains st.root = false →
       delete st = Except.error { st with index := none }) ∧
    (st.dirs.contains st.root = true →
       ∃ s, delete st = Except.ok s ∧ s.index = none ∧
         files s = [] ∧ st.root ∉ s.dirs ∧
         ∀ d ∈ s.dirs, underRoot st.root d = false) := by
  constructor
  · intro hc
    simp only [delete]
    rw [if_neg (fun h => by simp at h hc; exact hc h)]
  · intro hc
    simp only [delete]
    rw [if_pos hc]
    refine ⟨_, rfl, rfl, ?_, ?_, ?_⟩
    · simp only [files]
      rw [List.filter_eq_nil_iff]
      intro a ha
      obtain ⟨e, he, rfl⟩ := List.mem_map.mp ha
      rw [List.mem_filter] at he
      have he2 := he.2
      intro hcon
      rw [hcon] at he2
      simp at he2
    · intro hmem
      rw [List.mem_filter] at hmem
      have h2 := hmem.2
      simp at h2
    · intro d hd
      rw [List.mem_filter] at hd
      have h2 := hd.2
      cases hu : underRoot st.root d
      · rfl
      · rw [hu] at h2
        simp at h2

/-- Witness state for C9: the cache root directory does not exist. -/
def w9 : CacheState :=
  { root := ".c", dirs := [], fs := [(".c/.index", "I")], index := some [] }

theorem delete_detaches_and_removes_witness :
    delete w9 = Except.error { w9 with index := none } :=
  (delete_detaches_and_removes w9).1 (by decide)

/-- Claim C10: the target path depends only on the chosen slot and the
source basename; two successful `set` calls with distinct keys whose
sources share a basename and land in the same slot produce the same
target path in both index entries, the second copy silently overwriting
the file stored by the first. -/
theorem setitem_slot_collision (st : CacheState) (n : Fin 10)
    (k1 k2 u1 u2 p1 p2 : String) (hk : k1 ≠ k2)
    (hb : baseName p1 = baseName p2)
    (h1 : (setitem st n k1 u1 p1).1 = true)
    (h2 : (setitem (setitem st n k1 u1 p1).2 n k2 u2 p2).1 = true) :
    getitem (setitem (setitem st n k1 u1 p1).2 n k2 u2 p2).2 k1 =
      some (u1, some (joinPath (slotPath st.root n.val) (baseName p1))) ∧
    getitem (setitem (setitem st n k1 u1 p1).2 n k2 u2 p2).2 k2 =
      some (u2, some (joinPath (slotPath st.root n.val) (baseName p1))) ∧
    lookupFs (setitem (setitem st n k1 u1 p1).2 n k2 u2 p2).2.fs
        (joinPath (slotPath st.root n.val) (baseName p1)) =
      lookupFs (setitem st n k1 u1 p1).2.fs p2 := by
  obtain ⟨idx, hix1, hf1, hurl1, hset1⟩ := setitem_true_inv st n k1 u1 p1 h1
  rw [hset1] at h2 ⊢
  dsimp only at h2 ⊢
  obtain ⟨idx1, hix2, hf2, hurl2, hset2⟩ := setitem_true_inv _ n k2 u2 p2 h2
  dsimp only at hix2
  obtain rfl := Option.some.inj hix2
  rw [hset2]
  dsimp only at hset2 ⊢
  rw [hb]
  refine ⟨?_, ?_, ?_⟩
  · dsimp only [getitem]
    rw [lookup_indexSet_ne k2 k1 _ _ hk]
    exact lookup_indexSet_self k1 _ idx
  · dsimp only [getitem]
    exact lookup_indexSet_self k2 _ _
  · rw [lookup_fsInsert_self]
    rw [hb] at hf2
    exact isfile_getD_some _ p2 hf2

/-- Witness state for C10: two sources with the same basename, same
slot chosen for both calls. -/
def w10 : CacheState :=
  { root := ".c", dirs := [".c", ".c/slot03"],
    fs := [(".c/.index", "I"), ("/tmp/a/cov.jpg", "AAA"), ("/tmp/b/cov.jpg", "BBB")],
    index := some [] }

theorem setitem_slot_collision_witness :
    getitem (setitem (setitem w10 3 "k1" "u1" "/tmp/a/cov.jpg").2
        3 "k2" "u2" "/tmp/b/cov.jpg").2 "k1" =
      some ("u1", some (joinPath (slotPath w10.root (3 : Fin 10).val)
        (baseName "/tmp/a/cov.jpg"))) ∧
    getitem (setitem (setitem w10 3 "k1" "u1" "/tmp/a/cov.jpg").2
        3 "k2" "u2" "/tmp/b/cov.jpg").2 "k2" =
      some ("u2", some (joinPath (slotPath w10.root (3 : Fin 10).val)
        (baseName "/tmp/a/cov.jpg"))) ∧
    lookupFs (setitem (setitem w10 3 "k1" "u1" "/tmp/a/cov.jpg").2
        3 "k2" "u2" "/tmp/b/cov.jpg").2.fs
        (joinPath (slotPath w10.root (3 : Fin 10).val) (baseName "/tmp/a/cov.jpg")) =
      lookupFs (setitem w10 3 "k1" "u1" "/tmp/a/cov.jpg").2.fs "/tmp/b/cov.jpg" :=
  setitem_slot_collision w10 3 "k1" "k2" "u1" "u2" "/tmp/a/cov.jpg" "/tmp/b/cov.jpg"
    (by decide) (by decide) (by decide) (by decide)

end CoversCache
